import Mathlib

/-!
Shallow embedding of the `hypergraph` Python library (package `hypergraph`:
`core.py`, `path.py`, `search.py`, `orientation.py`, `connectivity.py`)
for checking its natural-language specification.

Modelling conventions, fixed once here:

* Vertices are natural numbers.  The Python code stores vertices in `set`s /
  `frozenset`s; a set is modelled as a `List ℕ` holding the set's iteration
  order (CPython iterates a small-int set in ascending value order, because
  `hash(n) = n` indexes the hash table directly).  All concrete inputs below
  use small, distinct, ascending vertex values, so list order = CPython order.
* Python `float` weights are modelled as `ℚ`, and `float('inf')` as `⊤` in
  `WithTop ℚ`.  Every concrete computation below stays in ranges where IEEE
  binary arithmetic is exact or comparisons are far from ties, so the `ℚ`
  model agrees with the `float` run (noted again at the concrete inputs).
* CPython interns small ints, so Python `is` coincides with `==` on the
  `ℕ`-valued vertices used everywhere except the `Edge.__eq__` study, which
  gets its own object-identity model (`PyInt`, `EdgeObj`) further down.
* Python dicts are association lists (`List (key × value)`); `dict[k] = v`
  overwrites in place or appends, exactly as CPython preserves slots.
* A raised exception is `Except.error` with the exception's message.
-/

namespace HG

attribute [local semireducible] Rat.add Rat.mul Rat.inv Rat.sub

/-- `Edge` from `core.py`: a `frozenset` of vertices with an optional head.
`verts` is the frozenset's iteration order and holds no duplicates. -/
structure Edge where
  verts : List ℕ
  head : Option ℕ
deriving DecidableEq

/-- Python truthiness of an optional vertex: `None` and the integer `0` are
falsy.  `core.py` tests `not edge.head` / `edge.head`, so a head of `0`
behaves like an absent head in those tests. -/
def pyTruthy : Option ℕ → Bool
  | none => false
  | some 0 => false
  | some _ => true

/-- `Edge.__eq__` as it behaves on interned (small-int) vertices:
`frozenset.__eq__(self, other) and self.head is other.head`; on interned ints
`is` coincides with value equality.  (The object-identity behaviour of `is`
on non-interned heads is modelled separately by `edgeObjEq` below.) -/
def edgeEq (e f : Edge) : Bool :=
  decide (e.verts.toFinset = f.verts.toFinset) && e.head == f.head

/-- `Edge.tail`: `set(self) - set([self._head])`. -/
def Edge.tail (e : Edge) : List ℕ :=
  match e.head with
  | none => e.verts
  | some h => e.verts.filter (fun v => v ≠ h)

/-- `set.pop()` on a freshly built tail set: some element of it (the first in
iteration order).  For a directed 2-vertex edge this is the unique non-head
vertex, which is the only use the path algorithms make of it. -/
def Edge.tailPop (e : Edge) : Option ℕ :=
  e.tail.head?

/-- `Hypergraph` from `core.py`: directedness flag, vertex set, edge set and
the weight dict `weights`. -/
structure Hypergraph where
  directed : Bool
  vertices : List ℕ
  edges : List Edge
  weights : List (Edge × ℚ)
deriving DecidableEq

/-- Decidable equality on `Except`, for settling concrete runs. -/
instance instDecEqExcept {ε α : Type} [DecidableEq ε] [DecidableEq α] :
    DecidableEq (Except ε α)
  | .error s, .error t =>
    if h : s = t then .isTrue (by rw [h]) else .isFalse (by simp [h])
  | .error _, .ok _ => .isFalse (by simp)
  | .ok _, .error _ => .isFalse (by simp)
  | .ok a, .ok b =>
    if h : a = b then .isTrue (by rw [h]) else .isFalse (by simp [h])

/-- `weights[edge]` lookup; dict keys compare with `Edge.__eq__`/`__hash__`,
i.e. with `edgeEq`.  `none` models a `KeyError`. -/
def lookupW (w : List (Edge × ℚ)) (e : Edge) : Option ℚ :=
  (w.find? (fun p => edgeEq p.1 e)).map (fun p => p.2)

/-- `weights[edge] = q`: overwrite the existing slot or append a new one. -/
def dictSet (w : List (Edge × ℚ)) (e : Edge) (q : ℚ) : List (Edge × ℚ) :=
  if w.any (fun p => edgeEq p.1 e) then
    w.map (fun p => if edgeEq p.1 e then (p.1, q) else p)
  else w ++ [(e, q)]

/-- `set.add(edge)` on the edge set: no-op if an equal edge is present. -/
def pySetAdd (l : List Edge) (e : Edge) : List Edge :=
  if l.any (fun f => edgeEq f e) then l else l ++ [e]

/-- `set.update(xs)` on the vertex set: union, keeping existing members. -/
def pySetUnion (l : List ℕ) (xs : List ℕ) : List ℕ :=
  xs.foldl (fun acc x => if x ∈ acc then acc else acc ++ [x]) l

/-- `Hypergraph.__init__`: validates every initial edge's directedness
(truthiness of its head) against the hypergraph's flag, aborting construction
on the first invalid edge; otherwise dedups the collections, sets each edge's
weight from the supplied dict (missing entries default to `1.0`), and unions
the edges' vertices into the vertex set (`self._vertices.update(*edges)`). -/
def mkHypergraph (vertices : List ℕ) (edges : List Edge) (weights : List (Edge × ℚ))
    (directed : Bool) : Except String Hypergraph :=
  let es := edges.foldl pySetAdd []
  if es.all (fun e => (!directed && !(pyTruthy e.head)) || (directed && pyTruthy e.head)) then
    .ok { directed := directed,
          vertices := es.foldl (fun acc e => pySetUnion acc e.verts) vertices.dedup,
          edges := es,
          weights := es.foldl (fun w e => dictSet w e ((lookupW weights e).getD 1)) [] }
  else .error "invalid edge"

/-- `Graph.__init__` from `core.py`: asserts `len(edge) == 2` for every
initial edge before any state is committed, then defers to
`Hypergraph.__init__`.  `Graph` overrides nothing else that mutates state:
in particular it does NOT override `add_edge`. -/
def mkGraph (vertices : List ℕ) (edges : List Edge) (weights : List (Edge × ℚ))
    (directed : Bool) : Except String Hypergraph :=
  if edges.all (fun e => e.verts.length == 2) then
    mkHypergraph vertices edges weights directed
  else .error "edges must have exactly two vertices"

/-- `Hypergraph.add_edge` (also inherited, unchanged, by `Graph`): checks only
that the edge's directedness (head truthiness) matches the hypergraph's; on
success unions the edge's vertices into `V`, adds the edge and sets its
weight.  There is no arity check anywhere in this method. -/
def add_edge (H : Hypergraph) (e : Edge) (weight : ℚ) : Except String Hypergraph :=
  if (!H.directed && !(pyTruthy e.head)) || (H.directed && pyTruthy e.head) then
    .ok { H with vertices := pySetUnion H.vertices e.verts,
                 edges := pySetAdd H.edges e,
                 weights := dictSet H.weights e weight }
  else .error "invalid edge"

/-- `Hypergraph.remove_edge`: `del self.weights[edge]` (KeyError when the dict
has no such key) then `self._edges.remove(edge)` (KeyError when absent). -/
def remove_edge (H : Hypergraph) (e : Edge) : Except String Hypergraph :=
  if H.weights.any (fun p => edgeEq p.1 e) then
    let H1 : Hypergraph := { H with weights := H.weights.filter (fun p => !(edgeEq p.1 e)) }
    if H1.edges.any (fun f => edgeEq f e) then
      .ok { H1 with edges := H1.edges.filter (fun f => !(edgeEq f e)) }
    else .error "KeyError: edge not in edge set"
  else .error "KeyError: edge not in weights"

/-- The loop of `Hypergraph.remove_vertex`: iterate over a snapshot of the
edge set and `remove_edge` every edge containing the vertex. -/
def remove_incident (v : ℕ) : List Edge → Hypergraph → Except String Hypergraph
  | [], acc => .ok acc
  | e :: rest, acc =>
    if v ∈ e.verts then
      match remove_edge acc e with
      | .error s => .error s
      | .ok acc' => remove_incident v rest acc'
    else remove_incident v rest acc

/-- `Hypergraph.remove_vertex`: removes every incident edge (and its weight)
via `remove_edge`, then `self._vertices.remove(vertex)` (KeyError if v ∉ V,
raised only after the incident edges are already gone). -/
def remove_vertex (H : Hypergraph) (v : ℕ) : Except String Hypergraph :=
  match remove_incident v H.edges H with
  | .error s => .error s
  | .ok H' =>
    if v ∈ H'.vertices then
      .ok { H' with vertices := H'.vertices.filter (fun x => x ≠ v) }
    else .error "KeyError: vertex not in vertex set"

/-- `Hypergraph.uniform(k=None)`: with `k` omitted the code runs
`k = len(iter(self.edges).next())`, which raises `StopIteration` on an empty
edge set; otherwise it tests `len(edge) == k` for every edge. -/
def uniform (H : Hypergraph) (k : Option ℕ) : Except String Bool :=
  match k with
  | some k => .ok (H.edges.all (fun e => e.verts.length == k))
  | none =>
    match H.edges with
    | [] => .error "StopIteration"
    | e0 :: _ => .ok (H.edges.all (fun e => e.verts.length == e0.verts.length))

/-- `Graph.uniform(k=None)` override: `return k is None or k == 2`, with no
look at the actual edges. -/
def graph_uniform (k : Option ℕ) : Bool :=
  k.isNone || k == some 2

/-- `Hypergraph.uniform(2)` for an honest `Hypergraph` receiver — the check the
path algorithms intend.  (When the receiver is a `Graph`, dynamic dispatch
lands on `graph_uniform`, which returns `True` unconditionally; the two agree
on every genuinely 2-uniform input, which is all the settled claims use.) -/
def uniform2 (H : Hypergraph) : Bool :=
  H.edges.all (fun e => e.verts.length == 2)

/-- `Hypergraph.degree(vertex)` with the default `weighted=True`: the sum of
the weights of the edges containing the vertex. -/
def degree (H : Hypergraph) (v : ℕ) : ℚ :=
  ((H.edges.filter (fun e => v ∈ e.verts)).map (fun e => (lookupW H.weights e).getD 0)).sum

/-- `Hypergraph.regular(d=None)`: with `d` omitted the code runs
`d = self.degree(iter(self.vertices).next())`, which raises `StopIteration`
on an empty vertex set. -/
def regular (H : Hypergraph) (d : Option ℚ) : Except String Bool :=
  match d with
  | some d => .ok (H.vertices.all (fun v => degree H v == d))
  | none =>
    match H.vertices with
    | [] => .error "StopIteration"
    | v0 :: _ => .ok (H.vertices.all (fun v => degree H v == degree H v0))

/-- `Hypergraph.adjacent(u, v)`: edges containing both; empty when `u = v`. -/
def adjacent (H : Hypergraph) (u v : ℕ) : List Edge :=
  if u == v then [] else H.edges.filter (fun e => decide (u ∈ e.verts) && decide (v ∈ e.verts))

/-- `Hypergraph.incident(v, forward)`: when `forward and self.directed`, the
edges whose head is `v`; otherwise the edges containing `v` whose head is not
`v`. -/
def incident (H : Hypergraph) (v : ℕ) (forward : Bool) : List Edge :=
  if forward && H.directed then H.edges.filter (fun e => e.head == some v)
  else H.edges.filter (fun e => decide (v ∈ e.verts) && e.head != some v)

/-- `Hypergraph.reachable(tail, head)`: directed, the set intersection
`adjacent(tail, head) & incident(head)`; undirected, `adjacent`. -/
def reachable (H : Hypergraph) (t h : ℕ) : List Edge :=
  if H.directed then
    (adjacent H t h).filter (fun e => (incident H h true).any (fun f => edgeEq e f))
  else adjacent H t h

/-- `Hypergraph.neighbors(vertex)`. -/
def neighbors (H : Hypergraph) (u : ℕ) : List ℕ :=
  H.vertices.filter (fun v => !(reachable H u v).isEmpty)

/-- `Hypergraph.indegree(vertex, weighted=False)` as the orientation code uses
it: for a directed hypergraph, the number of edges whose head is the vertex
(`edge.head == vertex`); undirected falls back to the unweighted degree. -/
def indegreeU (H : Hypergraph) (v : ℕ) : ℕ :=
  if H.directed then (H.edges.filter (fun e => e.head == some v)).length
  else (H.edges.filter (fun e => v ∈ e.verts)).length

/-! ## `path.py` — Bellman-Ford, Dijkstra, shortest_path, Floyd-Warshall -/

/-- `dist[v]` for the distance dicts of `path.py`: the stored value, `⊤`
standing for `float('inf')`.  The dicts are initialised with every vertex as
a key, so the default is never consulted on well-formed runs. -/
def dGet (d : List (ℕ × WithTop ℚ)) (v : ℕ) : WithTop ℚ :=
  ((d.find? (fun p => p.1 == v)).map (fun p => p.2)).getD ⊤

/-- `dist[v] = x`: overwrite the slot or append a new key. -/
def dSet (d : List (ℕ × WithTop ℚ)) (v : ℕ) (x : WithTop ℚ) : List (ℕ × WithTop ℚ) :=
  if d.any (fun p => p.1 == v) then d.map (fun p => if p.1 == v then (v, x) else p)
  else d ++ [(v, x)]

/-- `prev[v]` for the predecessor dicts. -/
def pGet (d : List (ℕ × Option ℕ)) (v : ℕ) : Option ℕ :=
  ((d.find? (fun p => p.1 == v)).map (fun p => p.2)).getD none

/-- `prev[v] = x`. -/
def pSet (d : List (ℕ × Option ℕ)) (v : ℕ) (x : Option ℕ) : List (ℕ × Option ℕ) :=
  if d.any (fun p => p.1 == v) then d.map (fun p => if p.1 == v then (v, x) else p)
  else d ++ [(v, x)]

/-- One edge step of the Bellman-Ford relaxation loop:
`u, v = edge.tail.pop(), edge.head; if dist[u] + w < dist[v]: ...`.
For the edges of a directed 2-uniform graph `tail.pop()` is the unique
non-head vertex and `head` is present; on a malformed edge Python would raise
(`pop` from an empty set), which no settled claim exercises, so the fallback
leaves the state unchanged. -/
def bf_relax (wts : List (Edge × ℚ)) (st : List (ℕ × WithTop ℚ) × List (ℕ × Option ℕ))
    (e : Edge) : List (ℕ × WithTop ℚ) × List (ℕ × Option ℕ) :=
  match e.tailPop, e.head with
  | some u, some v =>
    let w : ℚ := (lookupW wts e).getD 0
    let alt : WithTop ℚ := dGet st.1 u + (w : WithTop ℚ)
    if alt < dGet st.1 v then (dSet st.1 v alt, pSet st.2 v (some u)) else st
  | _, _ => st

/-- One full relaxation round (`for edge in G.edges`). -/
def bf_round (edges : List Edge) (wts : List (Edge × ℚ))
    (st : List (ℕ × WithTop ℚ) × List (ℕ × Option ℕ)) :
    List (ℕ × WithTop ℚ) × List (ℕ × Option ℕ) :=
  edges.foldl (bf_relax wts) st

/-- `n` relaxation rounds. -/
def bf_rounds (edges : List Edge) (wts : List (Edge × ℚ)) :
    ℕ → List (ℕ × WithTop ℚ) × List (ℕ × Option ℕ) →
    List (ℕ × WithTop ℚ) × List (ℕ × Option ℕ)
  | 0, st => st
  | n + 1, st => bf_rounds edges wts n (bf_round edges wts st)

/-- The verification-pass test: is the edge still relaxable? -/
def bf_relaxable (wts : List (Edge × ℚ)) (dist : List (ℕ × WithTop ℚ)) (e : Edge) : Bool :=
  match e.tailPop, e.head with
  | some u, some v => decide (dGet dist u + ((lookupW wts e).getD 0 : ℚ) < dGet dist v)
  | _, _ => false

/-- `bellman_ford(G, start)` from `path.py`.  Note the loop header in the
source is `for i in range(1, len(G.vertices) - 1)`, which executes
`|V| - 2` relaxation rounds (`(|V| - 1) - 1` in truncated subtraction), not
the `|V| - 1` rounds of the published algorithm; the verification pass then
raises `RuntimeError` whenever any edge is still relaxable. -/
def bellman_ford (G : Hypergraph) (start : ℕ) :
    Except String (List (ℕ × Option ℕ)) :=
  if !(G.directed && uniform2 G) then
    .error "function can only be applied to 2-uniform digraphs"
  else
    let dist0 := dSet (G.vertices.map (fun v => (v, (⊤ : WithTop ℚ)))) start 0
    let prev0 := G.vertices.map (fun v => (v, (none : Option ℕ)))
    let st := bf_rounds G.edges G.weights (G.vertices.length - 1 - 1) (dist0, prev0)
    if G.edges.any (fun e => bf_relaxable G.weights st.1 e) then
      .error "graph contains a negative-weight cycle"
    else .ok st.2

/-- The `u` selection of Dijkstra's main loop:
`u = None; for vertex in Q: if not u or dist[vertex] < dist[u]: u = vertex`.
Python's `not u` is also true when `u` is the vertex `0`, reproduced here. -/
def chooseU (dist : List (ℕ × WithTop ℚ)) (Q : List ℕ) : Option ℕ :=
  Q.foldl (fun u v =>
    match u with
    | none => some v
    | some 0 => some v
    | some w => if dGet dist v < dGet dist w then some v else u) none

/-- The relaxation of `u`'s neighbours in Dijkstra's loop.  The weight key is
`Edge([u, vertex], head=(G.directed and vertex or None))`; `G.directed and
vertex or None` is `vertex` when the graph is directed and `vertex` is truthy,
else `None`.  The lookup cannot raise on a 2-uniform graph: a neighbour always
shares exactly that 2-edge. -/
def dijkstra_relax (G : Hypergraph) (u : ℕ)
    (st : List (ℕ × WithTop ℚ) × List (ℕ × Option ℕ)) :
    List (ℕ × WithTop ℚ) × List (ℕ × Option ℕ) :=
  (neighbors G u).foldl (fun st v =>
    let key : Edge := ⟨[u, v], if G.directed && decide (v ≠ 0) then some v else none⟩
    let alt : WithTop ℚ := dGet st.1 u + ((lookupW G.weights key).getD 0 : ℚ)
    if alt < dGet st.1 v then (dSet st.1 v alt, pSet st.2 v (some u)) else st) st

/-- Dijkstra's `while Q:` loop.  Each pass removes the selected vertex from
`Q`, so `|Q|` passes exhaust it; the fuel is exactly that count. -/
def dijkstra_loop (G : Hypergraph) :
    ℕ → List ℕ → List (ℕ × WithTop ℚ) × List (ℕ × Option ℕ) →
    List (ℕ × WithTop ℚ) × List (ℕ × Option ℕ)
  | 0, _, st => st
  | _ + 1, [], st => st
  | fuel + 1, Q, st =>
    match chooseU st.1 Q with
    | none => st
    | some u => dijkstra_loop G fuel (Q.filter (fun x => x ≠ u)) (dijkstra_relax G u st)

/-- `dijkstra(G, start)` from `path.py`: precondition 2-uniformity and
non-negative weights, then greedy relaxation; returns the `prev` dict. -/
def dijkstra (G : Hypergraph) (start : ℕ) : Except String (List (ℕ × Option ℕ)) :=
  if uniform2 G && G.weights.all (fun p => decide (0 ≤ p.2)) then
    let dist0 := dSet (G.vertices.map (fun v => (v, (⊤ : WithTop ℚ)))) start 0
    let prev0 := G.vertices.map (fun v => (v, (none : Option ℕ)))
    .ok (dijkstra_loop G G.vertices.length G.vertices (dist0, prev0)).2
  else .error "function can only be applied to 2-uniform graphs with nonnegative edge weights"

/-- The path-reconstruction loop of `shortest_path`:
`while u in prev.keys(): path.insert(0, u); if prev[u]: dist += w; u = prev[u]`.
`u` becomes `None` at the start vertex and `None in prev.keys()` is false.
`if prev[u]:` is a truthiness test, false for `None` and for vertex `0`.
The Python loop has no bound; the fuel `|prev| + 1` covers every acyclic
predecessor map, which is all the settled claims evaluate. -/
def walk_path (G : Hypergraph) (prev : List (ℕ × Option ℕ)) :
    ℕ → Option ℕ → List ℕ → ℚ → List ℕ × ℚ
  | 0, _, path, dist => (path, dist)
  | fuel + 1, u, path, dist =>
    match u with
    | none => (path, dist)
    | some x =>
      if prev.any (fun p => p.1 == x) then
        let pu := pGet prev x
        let dist' :=
          if pyTruthy pu then
            dist + ((lookupW G.weights
              ⟨[pu.getD 0, x], if G.directed && decide (x ≠ 0) then some x else none⟩).getD 0)
          else dist
        walk_path G prev fuel pu (x :: path) dist'
      else (path, dist)

/-- `shortest_path(G, start, end)` from `path.py`: try Dijkstra, fall back to
Bellman-Ford on its `ValueError`, then walk the predecessor map from `end`. -/
def shortest_path (G : Hypergraph) (start fin : ℕ) : Except String (List ℕ × ℚ) :=
  let prevE : Except String (List (ℕ × Option ℕ)) :=
    match dijkstra G start with
    | .ok p => .ok p
    | .error _ => bellman_ford G start
  match prevE with
  | .error s => .error s
  | .ok prev => .ok (walk_path G prev (prev.length + 1) (some fin) [] 0)

/-- The initial distance table of `floyd_warshall`: `0.0` on the diagonal,
else the weight of `Edge([u, v], head=(G.directed and v or None))`, with a
`KeyError` turned into `float('inf')`. -/
def fw_init (G : Hypergraph) (u v : ℕ) : WithTop ℚ :=
  if u == v then 0
  else
    match lookupW G.weights ⟨[u, v], if G.directed && decide (v ≠ 0) then some v else none⟩ with
    | some w => (w : WithTop ℚ)
    | none => ⊤

/-- Python's binary `min(a, b)`: the second argument only when it is strictly
smaller (`min` returns its first argument on ties). -/
def wmin (a b : WithTop ℚ) : WithTop ℚ :=
  if b < a then b else a

/-- One in-place update `path[u][v] = min(path[u][v], path[u][w] + path[w][v])`. -/
def fw_upd (d : ℕ → ℕ → WithTop ℚ) (w u v : ℕ) : ℕ → ℕ → WithTop ℚ :=
  fun x y => if x == u && y == v then wmin (d u v) (d u w + d w v) else d x y

/-- `floyd_warshall(G)` from `path.py`: asserts 2-uniformity, then the triple
loop over the vertex set. -/
def floyd_warshall (G : Hypergraph) : Except String (ℕ → ℕ → WithTop ℚ) :=
  if uniform2 G then
    .ok (G.vertices.foldl (fun d w =>
          G.vertices.foldl (fun d u =>
            G.vertices.foldl (fun d v => fw_upd d w u v) d) d) (fw_init G))
  else .error "function can only be applied to 2-uniform graphs"

/-- The pruning loop of `shortest_path_subgraph`, with CPython's set-iterator
semantics: the loop runs `for edge in S.edges` over the live edge set, and
`S.remove_edge(edge)` inside the loop changes the set's size, so the very
next call into the iterator raises `RuntimeError: Set changed size during
iteration` — the first edge satisfying the pruning test aborts the whole
call.  Before that test, `path[edge.tail.pop()][edge.head]` raises `KeyError`
for an undirected edge, whose `head` is `None` and never a key of `path[u]`. -/
def sps_loop (S : Hypergraph) (d : ℕ → ℕ → WithTop ℚ) :
    List Edge → Except String Hypergraph
  | [] => .ok S
  | e :: rest =>
    match lookupW S.weights e with
    | none => .error "KeyError: edge not in weights"
    | some w =>
      match e.tailPop with
      | none => .error "KeyError: pop from an empty set"
      | some u =>
        match e.head with
        | none => .error "KeyError: None is not a key of the distance row"
        | some v =>
          if d u v < (w : WithTop ℚ) then
            .error "RuntimeError: Set changed size during iteration"
          else sps_loop S d rest

/-- `shortest_path_subgraph(G)` from `path.py`: `S = deepcopy(G)` (the deep
copy of a pure value is the value itself here), `path = floyd_warshall(S)`,
then the pruning loop over `S.edges`. -/
def shortest_path_subgraph (G : Hypergraph) : Except String Hypergraph :=
  match floyd_warshall G with
  | .error s => .error s
  | .ok d => sps_loop G d G.edges

/-! ## `search.py` — breadth-first search -/

/-- The inner body of `breadth_first_search` for one dequeued vertex `v`:
scan `H.incident(v, forward=False)`; for each edge, the candidate
destinations are `[edge.head]` when the hypergraph is directed (directed
edges built through the API always carry a head) and the edge's whole vertex
set otherwise; every yet-unmarked candidate is marked, enqueued and yielded.
The result is (the newly yielded vertices in order, the new marked list). -/
def bfs_visit (H : Hypergraph) (v : ℕ) (marked : List ℕ) : List ℕ × List ℕ :=
  (incident H v false).foldl (fun acc e =>
    (if H.directed then (match e.head with | some h => [h] | none => []) else e.verts).foldl
      (fun acc w =>
        if w ∈ acc.2 then acc else (acc.1 ++ [w], acc.2 ++ [w])) acc)
    ([], marked)

/-- The `while Q:` loop of `breadth_first_search`, with fuel: each pass pops
one queue entry, and entries are enqueued at most once per marked vertex, so
`|V| + Σ|e| + 1` passes cover every run the settled claims evaluate. -/
def bfs_loop (H : Hypergraph) : ℕ → List ℕ → List ℕ → List ℕ
  | 0, _, _ => []
  | _ + 1, [], _ => []
  | fuel + 1, v :: Q, marked =>
    let step := bfs_visit H v marked
    step.1 ++ bfs_loop H fuel (Q ++ step.1) step.2

/-- `breadth_first_search(H, start)` from `search.py`, as the list of the
vertices the generator yields, in order.  Its first `yield` is
unconditionally `start` itself. -/
def breadth_first_search (H : Hypergraph) (start : ℕ) : List ℕ :=
  start :: bfs_loop H (H.vertices.length + (H.edges.map (fun e => e.verts.length)).sum + 1)
    [start] [start]

/-! ## `orientation.py` — minimum_maximum_indegree_orientation -/

/-- Modelled Python semantics of the tuple unpacking in
`find_reducing_path`'s loop header `for w, path in breadth_first_search(L, u)`:
`breadth_first_search` (in `search.py`) yields bare vertices — here natural
numbers — and unpacking an integer into `(w, path)` raises
`TypeError: 'int' object is not iterable`.  So the unpacking never succeeds. -/
def unpack_vertex_pair (_v : ℕ) : Option (ℕ × List (Edge × ℕ)) :=
  none

/-- The scan of `find_reducing_path` over the BFS generator's output: unpack
each yielded value as `(w, path)` and return `path` once `D[w] < D[u] - 1`
(integer arithmetic; for the `ℕ`-valued unweighted indegrees the truncated
subtraction agrees with Python's because `x < D[u] - 1` is false either way
when `D[u] ≤ 1`). -/
def frp_scan (D : ℕ → ℕ) (u : ℕ) : List ℕ → Except String (Option (List (Edge × ℕ)))
  | [] => .ok none
  | w :: rest =>
    match unpack_vertex_pair w with
    | none => .error "TypeError: cannot unpack vertex"
    | some (wv, path) =>
      if D wv < D u - 1 then .ok (some path) else frp_scan D u rest

/-- `find_reducing_path(L, D, u)` from `orientation.py`. -/
def find_reducing_path (L : Hypergraph) (D : ℕ → ℕ) (u : ℕ) :
    Except String (Option (List (Edge × ℕ))) :=
  frp_scan D u (breadth_first_search L u)

/-- `dict[k] = v` for the ℕ-keyed, ℕ-valued `degrees_rev` dict. -/
def dictUpd (d : List (ℕ × ℕ)) (k v : ℕ) : List (ℕ × ℕ) :=
  if d.any (fun p => p.1 == k) then d.map (fun p => if p.1 == k then (k, v) else p)
  else d ++ [(k, v)]

/-- The `vmax` selection of the orientation loop:
`degrees_rev = dict(map(lambda v: (v[1], v[0]), degrees.items()))` (entries
with equal indegree collapse, the later vertex winning the slot), then
`vmax = degrees_rev[max(degrees_rev.keys())]`.  `max` of an empty dict's keys
raises `ValueError`, modelled as `none`. -/
def max_indegree_vertex (L : Hypergraph) : Option ℕ :=
  let rev := L.vertices.foldl (fun acc v => dictUpd acc (indegreeU L v) v) []
  match rev with
  | [] => none
  | _ =>
    let m := (rev.map (fun p => p.1)).foldl Nat.max 0
    (rev.find? (fun p => p.1 == m)).map (fun p => p.2)

/-- The path-reversal loop: `for edge, vertex in path: L.remove_edge(edge);
L.add_edge(Edge(edge, head=vertex))`. -/
def reverse_path : List (Edge × ℕ) → Hypergraph → Except String Hypergraph
  | [], L => .ok L
  | (e, v) :: rest, L =>
    match remove_edge L e with
    | .error s => .error s
    | .ok L1 =>
      match add_edge L1 ⟨e.verts, some v⟩ 1 with
      | .error s => .error s
      | .ok L2 => reverse_path rest L2

/-- The arbitrary-orientation setup of `minimum_maximum_indegree_orientation`:
`for edge in H.edges: L.add_edge(Edge(edge, head=sample(edge, 1)[0]))`.  The
random `sample(edge, 1)[0]` is abstracted into the choice function `pick`,
constrained at each use to return a member of the edge as `sample` does. -/
def orient_edges (pick : Edge → ℕ) : List Edge → Hypergraph → Except String Hypergraph
  | [], L => .ok L
  | e :: rest, L =>
    match add_edge L ⟨e.verts, some (pick e)⟩ 1 with
    | .error s => .error s
    | .ok L' => orient_edges pick rest L'

/-- The `while True:` loop of `minimum_maximum_indegree_orientation`, with
fuel.  The Python loop's own termination is not modelled (and never reached:
on every input the first pass ends in an exception, proved below); the fuel
exhaustion branch reports a model-level error. -/
def mmio_loop : ℕ → Hypergraph → Except String Hypergraph
  | 0, _ => .error "model fuel exhausted"
  | fuel + 1, L =>
    match max_indegree_vertex L with
    | none => .error "ValueError: max() arg is an empty sequence"
    | some vmax =>
      match find_reducing_path L (fun v => indegreeU L v) vmax with
      | .error s => .error s
      | .ok none => .ok L
      | .ok (some path) =>
        match reverse_path path L with
        | .error s => .error s
        | .ok L' => mmio_loop fuel L'

/-- `minimum_maximum_indegree_orientation(H)` from `orientation.py`,
parameterised by the head-sampling choice `pick`.  `L` starts as
`Hypergraph(vertices=H.vertices, directed=True)`. -/
def minimum_maximum_indegree_orientation (H : Hypergraph) (pick : Edge → ℕ) :
    Except String Hypergraph :=
  match orient_edges pick H.edges ⟨true, H.vertices, [], []⟩ with
  | .error s => .error s
  | .ok L => mmio_loop (H.edges.length + H.vertices.length + 1) L

/-! ## `connectivity.py` — edge_cut and isoperimetric_number -/

/-- `itertools.combinations(l, n)`: the size-`n` subsequences of `l`, each in
`l`'s order, enumerated lexicographically by position. -/
def combinations : ℕ → List ℕ → List (List ℕ)
  | 0, _ => [[]]
  | _ + 1, [] => []
  | n + 1, x :: xs => (combinations n xs).map (fun c => x :: c) ++ combinations (n + 1) xs

/-- The per-edge test of `edge_cut`'s loop: scan `combinations(edge, 2)` —
the ordered pairs `(u, v)` with `u` before `v` in the frozenset's iteration
order — and accept on the first pair with
`u in X and not u in Y and v in Y and not v in X`.  The test is NOT
symmetric in `u` and `v`: only the pair orientation that lists the `X`
member first is ever examined. -/
def edge_cut_hit (X Y : List ℕ) (e : Edge) : Bool :=
  (combinations 2 e.verts).any (fun p =>
    match p with
    | [u, v] => decide (u ∈ X) && !(decide (u ∈ Y)) && decide (v ∈ Y) && !(decide (v ∈ X))
    | _ => false)

/-- The body of `edge_cut` after its subset check: `Y = H.vertices - X`, then
collect every edge some ordered pair of which passes `edge_cut_hit`. -/
def edge_cut_core (H : Hypergraph) (X : List ℕ) : List Edge :=
  let Y := H.vertices.filter (fun v => v ∉ X)
  H.edges.filter (edge_cut_hit X Y)

/-- `edge_cut(H, X)` from `connectivity.py`: `ValueError` unless `X` is a
subset of the vertex set. -/
def edge_cut (H : Hypergraph) (X : List ℕ) : Except String (List Edge) :=
  if X.all (fun x => x ∈ H.vertices) then .ok (edge_cut_core H X)
  else .error "set is not a subset of the hypergraph vertices"

/-- `isoperimetric_number(H)` from `connectivity.py`:
`i = float('inf')`, then for `n in range(1, len(V)/2 + 1)` and each size-`n`
combination `X`, compute `ex = len(edge_cut(H, set(X)))` (the subset check
always passes, `X` being drawn from the vertex set) and keep `ex / n` when
smaller.  The module is Python 2 with no future division, so `ex / n` is
INTEGER division; every stored value is a natural number, and the initial
`float('inf')` is `⊤`. -/
def isoperimetric_number (H : Hypergraph) : WithTop ℕ :=
  (List.range' 1 (H.vertices.length / 2)).foldl (fun i n =>
    (combinations n H.vertices).foldl (fun i X =>
      let q : ℕ := (edge_cut_core H X).length / n
      if (q : WithTop ℕ) < i then (q : WithTop ℕ) else i) i) ⊤

/-- The spec's notion of the cut: an edge crosses `X` when it has at least
one vertex in `X` and at least one in `V ∖ X` (the symmetric condition the
claims state for `edge_cut`). -/
def crosses (H : Hypergraph) (X : List ℕ) (e : Edge) : Bool :=
  e.verts.any (fun u => decide (u ∈ X)) &&
    e.verts.any (fun u => decide (u ∈ H.vertices) && !(decide (u ∈ X)))

/-- The value the isoperimetric-number claim describes: the minimum, over
every nonempty `X ⊆ V` with `|X| ≤ |V|/2`, of the exact rational ratio
`|{e crossing X}| / |X|`.  (For integer `|X|`, `|X| ≤ |V|/2` over the reals
is `|X| ≤ ⌊|V|/2⌋`, and `combinations` enumerates exactly the size-`n`
subsets.) -/
def isoperimetric_number_claim (H : Hypergraph) : WithTop ℚ :=
  (List.range' 1 (H.vertices.length / 2)).foldl (fun i n =>
    (combinations n H.vertices).foldl (fun i X =>
      wmin i ((((H.edges.filter (crosses H X)).length : ℚ) / (n : ℚ) : ℚ) : WithTop ℚ)) i) ⊤

/-! ## Object-identity model for `Edge.__eq__`

`Edge.__eq__` is `frozenset.__eq__(self, other) and self.head is other.head`.
The frozenset comparison uses the members' `__eq__` (value equality), but the
heads are compared with `is` — CPython object identity.  Ints outside the
interned range (roughly beyond 256) that are constructed separately are
distinct objects with equal values, so head identity is strictly finer than
head equality.  `PyInt` carries an object identity `oid` alongside the value;
two `PyInt`s with the same `oid` are the same object (hence equal values in
any real heap — the counterexample below uses distinct `oid`s with equal
values, exactly the non-interned situation). -/

/-- A Python int object: identity plus value. -/
structure PyInt where
  oid : ℕ
  val : ℤ
deriving DecidableEq

/-- Python `is` on the `_head` slots: `None is None` is true, an int is never
`None`, and two ints are `is`-identical exactly when they are the same
object. -/
def pyIsHead : Option PyInt → Option PyInt → Bool
  | none, none => true
  | some a, some b => a.oid == b.oid
  | _, _ => false

/-- An `Edge` as an object: the frozenset dedups and compares its members by
value, so the member set is a `Finset ℤ` of values; the head slot keeps the
stored object. -/
structure EdgeObj where
  verts : Finset ℤ
  head : Option PyInt
deriving DecidableEq

/-- `Edge(iterable, head)` construction of the member set from a list of int
objects. -/
def mkEdgeObj (l : List PyInt) (h : Option PyInt) : EdgeObj :=
  ⟨(l.map PyInt.val).toFinset, h⟩

/-- `Edge.__eq__`: frozenset value equality AND head object identity. -/
def edgeObjEq (e f : EdgeObj) : Bool :=
  (e.verts == f.verts) && pyIsHead e.head f.head

/-! ## Concrete inputs -/

/-- An undirected 2-edge between `a` and `b` (frozenset order `[a, b]`,
ascending, matching CPython's small-int set order). -/
def eU (a b : ℕ) : Edge := ⟨[a, b], none⟩

/-- A directed 2-edge from `a` to `b`. -/
def eD (a b : ℕ) : Edge := ⟨[a, b], some b⟩

/-- The 3-vertex undirected edge used against the `Graph` arity claim. -/
def e123 : Edge := ⟨[1, 2, 3], none⟩

/-- The state `add_edge` leaves after accepting `e123` on an empty undirected
`Graph`. -/
def G1bad : Hypergraph := ⟨false, [1, 2, 3], [e123], [(e123, 1)]⟩

/-- A directed 2-vertex, single-edge, unit-weight graph: vertices `{1, 2}`,
edge `1 → 2` of weight `1`, as `Graph(vertices={1,2}, directed=True)` plus
`add_edge` build it.  It has no cycle at all. -/
def G2 : Hypergraph := ⟨true, [1, 2], [eD 1 2], [(eD 1 2, 1)]⟩

/-- A directed triangle: `1 → 2` and `2 → 3` of weight `1`, plus the
non-tight shortcut `1 → 3` of weight `5`. -/
def G3 : Hypergraph :=
  ⟨true, [1, 2, 3], [eD 1 2, eD 2 3, eD 1 3],
    [(eD 1 2, 1), (eD 2 3, 1), (eD 1 3, 5)]⟩

/-- An undirected 2-uniform graph with one non-tight edge: `1 — 2` and
`2 — 3` of weight `1`, `1 — 3` of weight `5`. -/
def G3u : Hypergraph :=
  ⟨false, [1, 2, 3], [eU 1 2, eU 2 3, eU 1 3],
    [(eU 1 2, 1), (eU 2 3, 1), (eU 1 3, 5)]⟩

/-- The single-undirected-edge hypergraph on vertices `{1, 2}`. -/
def H12 : Hypergraph := ⟨false, [1, 2], [eU 1 2], [(eU 1 2, 1)]⟩

/-- The undirected path graph `1 — 2 — 3 — 4` with unit weights. -/
def P4 : Hypergraph :=
  ⟨false, [1, 2, 3, 4], [eU 1 2, eU 2 3, eU 3 4],
    [(eU 1 2, 1), (eU 2 3, 1), (eU 3 4, 1)]⟩

/-- The spec's concrete shortest-path scenario: undirected graph on
`{1,...,5}` with weights `(1,2)=1.25`, `(2,3)=1`, `(3,4)=1.11`, `(4,5)=1.43`,
`(3,5)=10`, `(5,2)=2`, `(1,5)=100`.  The decimal weights are exact `ℚ`
values; in the `float` run every comparison the algorithm makes on this graph
is decided far from rounding error, and the returned total `1.25 + 2` is
exact in binary, so the `ℚ` model returns the same path and total. -/
def G9 : Hypergraph :=
  ⟨false, [1, 2, 3, 4, 5],
    [eU 1 2, eU 2 3, eU 3 4, eU 4 5, eU 3 5, eU 5 2, eU 1 5],
    [(eU 1 2, 5/4), (eU 2 3, 1), (eU 3 4, 111/100), (eU 4 5, 143/100),
     (eU 3 5, 10), (eU 5 2, 2), (eU 1 5, 100)]⟩

/-- The empty hypergraph. -/
def emptyH : Hypergraph := ⟨false, [], [], []⟩

/-- A non-interned int object with value 1000. -/
def objA : PyInt := ⟨0, 1000⟩

/-- A second, distinct int object with the same value 1000 (e.g. the results
of evaluating `1000` and `10 ** 3` separately in CPython). -/
def objA' : PyInt := ⟨1, 1000⟩

/-- An int object with value 2000. -/
def objB : PyInt := ⟨2, 2000⟩

/-- No two (Python-equal) duplicate edges in a list — edge sets are Python
`set`s keyed by `Edge.__eq__`/`__hash__`, so they never hold duplicates. -/
def edges_distinct : List Edge → Bool
  | [] => true
  | e :: rest => rest.all (fun f => !(edgeEq e f)) && edges_distinct rest

/-- The representation invariant every `Hypergraph` built through `core.py`'s
API satisfies: the edge set holds no duplicates, and every edge has an entry
in the weight dict (constructor and `add_edge` both set one, `remove_edge`
deletes both together). -/
def wf (H : Hypergraph) : Bool :=
  H.edges.all (fun e => H.weights.any (fun p => edgeEq p.1 e)) && edges_distinct H.edges

/-! ## Helper lemmas -/

theorem edgeEq_iff {e f : Edge} :
    edgeEq e f = true ↔ e.verts.toFinset = f.verts.toFinset ∧ e.head = f.head := by
  simp [edgeEq]

theorem edgeEq_refl (e : Edge) : edgeEq e e = true := by
  simp [edgeEq]

theorem edgeEq_across {f e e' : Edge} (h1 : edgeEq f e = true) (h2 : edgeEq f e' = true) :
    edgeEq e e' = true := by
  rcases edgeEq_iff.1 h1 with ⟨hv1, hh1⟩
  rcases edgeEq_iff.1 h2 with ⟨hv2, hh2⟩
  exact edgeEq_iff.2 ⟨hv1 ▸ hv2, hh1 ▸ hh2⟩

theorem mem_verts_of_edgeEq {f e : Edge} (h : edgeEq f e = true) {v : ℕ} :
    v ∈ f.verts ↔ v ∈ e.verts := by
  rcases edgeEq_iff.1 h with ⟨hv, _⟩
  rw [← List.mem_toFinset, hv, List.mem_toFinset]

theorem remove_edge_ok {H : Hypergraph} {e : Edge}
    (hw : H.weights.any (fun p => edgeEq p.1 e) = true)
    (he : H.edges.any (fun f => edgeEq f e) = true) :
    remove_edge H e = .ok ⟨H.directed, H.vertices,
      H.edges.filter (fun f => !(edgeEq f e)),
      H.weights.filter (fun p => !(edgeEq p.1 e))⟩ := by
  simp [remove_edge, hw, he]

/-- Characterisation of the incident-edge removal loop of `remove_vertex`:
on a duplicate-free snapshot whose relevant entries are all present, it
succeeds and filters exactly the snapshot's `v`-incident edges (and their
weight entries) out of the accumulator. -/
theorem remove_incident_spec (v : ℕ) : ∀ (l : List Edge) (acc : Hypergraph),
    edges_distinct l = true →
    (∀ e ∈ l, v ∈ e.verts →
      acc.edges.any (fun f => edgeEq f e) = true ∧
      acc.weights.any (fun p => edgeEq p.1 e) = true) →
    remove_incident v l acc = .ok ⟨acc.directed, acc.vertices,
      acc.edges.filter (fun f => !(l.any (fun e => decide (v ∈ e.verts) && edgeEq f e))),
      acc.weights.filter (fun p => !(l.any (fun e => decide (v ∈ e.verts) && edgeEq p.1 e)))⟩ := by
  intro l
  induction l with
  | nil =>
    intro acc _ _
    simp [remove_incident]
  | cons e rest ih =>
    intro acc hdist hpres
    have hdist' : rest.all (fun f => !(edgeEq e f)) = true ∧ edges_distinct rest = true := by
      simpa [edges_distinct, Bool.and_eq_true] using hdist
    by_cases hv : v ∈ e.verts
    · rcases hpres e (List.mem_cons_self e rest) hv with ⟨hee, hew⟩
      rw [remove_incident, if_pos hv, remove_edge_ok hew hee]
      have hpres' : ∀ e' ∈ rest, v ∈ e'.verts →
          ((⟨acc.directed, acc.vertices,
            acc.edges.filter (fun f => !(edgeEq f e)),
            acc.weights.filter (fun p => !(edgeEq p.1 e))⟩ : Hypergraph)).edges.any
              (fun f => edgeEq f e') = true ∧
          ((⟨acc.directed, acc.vertices,
            acc.edges.filter (fun f => !(edgeEq f e)),
            acc.weights.filter (fun p => !(edgeEq p.1 e))⟩ : Hypergraph)).weights.any
              (fun p => edgeEq p.1 e') = true := by
        intro e' he' hv'
        have hne : edgeEq e e' = false := by
          have := List.all_eq_true.1 hdist'.1 e' he'
          simpa using this
        rcases hpres e' (List.mem_cons_of_mem e he') hv' with ⟨h1, h2⟩
        constructor
        · rcases List.any_eq_true.1 h1 with ⟨f, hf, hfe⟩
          refine List.any_eq_true.2 ⟨f, List.mem_filter.2 ⟨hf, ?_⟩, hfe⟩
          have hq : edgeEq f e = false := by
            cases hq' : edgeEq f e
            · rfl
            · simp [edgeEq_across hq' hfe] at hne
          simp [hq]
        · rcases List.any_eq_true.1 h2 with ⟨p, hp, hpe⟩
          refine List.any_eq_true.2 ⟨p, List.mem_filter.2 ⟨hp, ?_⟩, hpe⟩
          have hq : edgeEq p.1 e = false := by
            cases hq' : edgeEq p.1 e
            · rfl
            · simp [edgeEq_across hq' hpe] at hne
          simp [hq]
      dsimp only
      rw [ih _ hdist'.2 hpres']
      have hvd : decide (v ∈ e.verts) = true := by simp [hv]
      simp only [List.filter_filter, List.any_cons, hvd, Bool.true_and, Bool.not_or,
        Bool.and_comm]
    · rw [remove_incident, if_neg hv, ih acc hdist'.2
        (fun e' he' hv' => hpres e' (List.mem_cons_of_mem e he') hv')]
      have hvd : decide (v ∈ e.verts) = false := by simp [hv]
      simp only [List.any_cons, hvd, Bool.false_and, Bool.false_or]

/-- Auxiliary for C4: on the two-vertex one-edge graph, whichever of its two
vertices was sampled as head, the orientation loop's very first
`find_reducing_path` call dies unpacking the first BFS yield. -/
theorem mmio_loop_two_vertex (h : ℕ) (hh : h = 1 ∨ h = 2) :
    mmio_loop 4 ⟨true, [1, 2], [⟨[1, 2], some h⟩], [(⟨[1, 2], some h⟩, 1)]⟩ =
      .error "TypeError: cannot unpack vertex" := by
  rcases hh with rfl | rfl <;> decide

/-! ## Claim theorems -/

/-- C1: 2-uniformity of a `Graph` is enforced at construction (a non-2-vertex
initial edge aborts with `ValueError`), but the claim's second half fails:
`Graph` inherits `Hypergraph.add_edge` unchanged, so adding the 3-vertex edge
`e123` to an empty undirected `Graph` succeeds and commits it — the resulting
state is not 2-uniform (`uniform2` is false) while the `Graph.uniform`
override still reports 2-uniformity. -/
theorem graph_two_uniformity_not_enforced_on_add :
    mkGraph [] [e123] [] false = .error "edges must have exactly two vertices" ∧
    mkGraph [] [] [] false = .ok emptyH ∧
    add_edge emptyH e123 1 = .ok G1bad ∧
    e123 ∈ G1bad.edges ∧ e123.verts.length = 3 ∧
    uniform2 G1bad = false ∧ graph_uniform (some 2) = true := by
  decide

/-- C2: `bellman_ford` runs `range(1, |V| - 1)`, i.e. `|V| - 2` relaxation
rounds instead of the claimed `|V| - 1`.  On the cycle-free directed graph
`G2` (two vertices, the single positive-weight edge `1 → 2`) that is zero
rounds, so the verification pass still finds `1 → 2` relaxable and the call
raises `RuntimeError: negative-weight cycle` although `G2`'s weights are all
positive and it has no cycle at all. -/
theorem bellman_ford_false_negative_cycle :
    bellman_ford G2 1 = .error "graph contains a negative-weight cycle" ∧
    G2.vertices.length - 1 - 1 = 0 ∧
    G2.weights.all (fun p => decide (0 < p.2)) = true := by
  decide

/-- C3: on the directed graph `G3`, `floyd_warshall` succeeds and computes the
shortest distance `2` from `1` to `3`, strictly below the weight `5` of the
direct edge — so `shortest_path_subgraph` tries to prune that edge while
iterating over the very set it mutates and raises `RuntimeError: Set changed
size during iteration` instead of returning the pruned copy; and on the
undirected variant `G3u` it raises `KeyError` outright (an undirected edge's
`head` is `None`, which is never a key of the distance table's rows). -/
theorem shortest_path_subgraph_mutation_error :
    (floyd_warshall G3).isOk = true ∧
    (match floyd_warshall G3 with | .ok d => d 1 3 | .error _ => 0) = ((2 : ℚ) : WithTop ℚ) ∧
    lookupW G3.weights (eD 1 3) = some 5 ∧
    shortest_path_subgraph G3 = .error "RuntimeError: Set changed size during iteration" ∧
    shortest_path_subgraph G3u = .error "KeyError: None is not a key of the distance row" := by
  decide

/-- C4: `minimum_maximum_indegree_orientation` never returns an orientation:
its `find_reducing_path` iterates `for w, path in breadth_first_search(L, u)`,
but `search.py`'s `breadth_first_search` yields bare vertices, so the first
yielded value (the start vertex itself) fails to unpack and the call raises
`TypeError` — here proved on the undirected hypergraph `H12` for every choice
the random head-sampling could make. -/
theorem orientation_unpack_type_error (pick : Edge → ℕ)
    (hpick : pick (eU 1 2) ∈ (eU 1 2).verts) :
    minimum_maximum_indegree_orientation H12 pick =
      .error "TypeError: cannot unpack vertex" := by
  have hh : pick (eU 1 2) = 1 ∨ pick (eU 1 2) = 2 := by
    simpa [eU] using hpick
  rcases hh with h1 | h1 <;>
    simp only [minimum_maximum_indegree_orientation, H12, orient_edges, h1] <;>
    decide

/-- C4 witness: the concrete sampler that always picks vertex 1. -/
theorem orientation_unpack_type_error_witness :
    minimum_maximum_indegree_orientation H12 (fun _ => 1) =
      .error "TypeError: cannot unpack vertex" :=
  orientation_unpack_type_error (fun _ => 1) (by decide)

/-- C5: `edge_cut` tests each pair only in the frozenset's iteration order
(`u ∈ X` first), so the single crossing edge of `H12` is found for `X = {1}`
but missed for `X = {2}`: the cut of `{2}` comes back empty although the edge
has a vertex in `X` and one in `V ∖ X`. -/
theorem edge_cut_asymmetric_miss :
    crosses H12 [2] (eU 1 2) = true ∧
    edge_cut H12 [2] = .ok [] ∧
    edge_cut H12 [1] = .ok [eU 1 2] := by
  decide

/-- C6: on the path graph `P4` the code returns `0` — `X = {4}` already gets
an empty (asymmetric) cut, and the Python-2 quotient `ex / n` truncates the
genuine ratios such as `1/2` to `0` — while the exact rational minimum of
`|cut(X)| / |X|` over the admissible subsets is `1/2`. -/
theorem isoperimetric_number_truncated :
    isoperimetric_number P4 = ((0 : ℕ) : WithTop ℕ) ∧
    isoperimetric_number_claim P4 = ((1/2 : ℚ) : WithTop ℚ) := by
  decide

/-- C7 counterexample: two edges over equal vertex-value sets whose heads are
equal in value but distinct objects (non-interned ints `1000`) compare
UNEQUAL, because `Edge.__eq__` compares heads with `is` (object identity),
not `==` — refuting the claim's "two edges over equal vertex sets whose heads
are equal values are equal edges". -/
theorem edge_eq_value_heads_counterexample :
    (mkEdgeObj [objA, objB] (some objA)).verts = (mkEdgeObj [objA', objB] (some objA')).verts ∧
    (mkEdgeObj [objA, objB] (some objA)).head.map PyInt.val =
      (mkEdgeObj [objA', objB] (some objA')).head.map PyInt.val ∧
    edgeObjEq (mkEdgeObj [objA, objB] (some objA)) (mkEdgeObj [objA', objB] (some objA')) = false := by
  decide

/-- C7 amended: edge equality holds iff the vertex-value sets are equal and
the heads are the SAME OBJECT (`is`), both-absent included.  The claim's
concrete parts stand: an edge with a head differs from the headless edge on
the same vertices, and vertex order is irrelevant; only "equal-valued heads
suffice" had to be weakened to head identity. -/
theorem edge_equality_amended :
    (∀ A B : PyInt, edgeObjEq (mkEdgeObj [A, B] none) (mkEdgeObj [A, B] (some A)) = false) ∧
    (∀ A B : PyInt, edgeObjEq (mkEdgeObj [A, B] none) (mkEdgeObj [B, A] none) = true) ∧
    (∀ e f : EdgeObj, edgeObjEq e f = true ↔ (e.verts = f.verts ∧ pyIsHead e.head f.head = true)) := by
  refine ⟨?_, ?_, ?_⟩
  · intro A B
    simp [edgeObjEq, mkEdgeObj, pyIsHead]
  · intro A B
    simp [edgeObjEq, mkEdgeObj, pyIsHead, Finset.pair_comm]
  · intro e f
    simp [edgeObjEq]

/-- C8: for a well-formed hypergraph and a vertex of it, `remove_vertex`
succeeds, removes the vertex, leaves no edge containing it, and leaves no
weight entry for any removed (incident) edge. -/
theorem remove_vertex_removes_incident (H : Hypergraph) (v : ℕ)
    (hwf : wf H = true) (hv : v ∈ H.vertices) :
    ∃ H', remove_vertex H v = .ok H' ∧
      v ∉ H'.vertices ∧
      (∀ f ∈ H'.edges, v ∉ f.verts) ∧
      (∀ e ∈ H.edges, v ∈ e.verts → lookupW H'.weights e = none) := by
  have hwf' : (H.edges.all (fun e => H.weights.any (fun p => edgeEq p.1 e))) = true ∧
      edges_distinct H.edges = true := by
    simpa [wf, Bool.and_eq_true] using hwf
  have hpres : ∀ e ∈ H.edges, v ∈ e.verts →
      H.edges.any (fun f => edgeEq f e) = true ∧
      H.weights.any (fun p => edgeEq p.1 e) = true := by
    intro e he _
    exact ⟨List.any_eq_true.2 ⟨e, he, edgeEq_refl e⟩, List.all_eq_true.1 hwf'.1 e he⟩
  have hrem := remove_incident_spec v H.edges H hwf'.2 hpres
  refine ⟨⟨H.directed, H.vertices.filter (fun x => x ≠ v),
    H.edges.filter (fun f => !(H.edges.any (fun e => decide (v ∈ e.verts) && edgeEq f e))),
    H.weights.filter (fun p => !(H.edges.any (fun e => decide (v ∈ e.verts) && edgeEq p.1 e)))⟩,
    ?_, ?_, ?_, ?_⟩
  · rw [remove_vertex, hrem]
    dsimp only
    rw [if_pos hv]
  · intro hmem
    rcases List.mem_filter.1 hmem with ⟨_, hne⟩
    simp at hne
  · intro f hf hvf
    rcases List.mem_filter.1 hf with ⟨hfH, hcond⟩
    have : H.edges.any (fun e => decide (v ∈ e.verts) && edgeEq f e) = true :=
      List.any_eq_true.2 ⟨f, hfH, by simp [hvf, edgeEq_refl]⟩
    simp [this] at hcond
  · intro e he hve
    have hnone : (List.filter
        (fun p => !(H.edges.any (fun e' => decide (v ∈ e'.verts) && edgeEq p.1 e')))
        H.weights).find? (fun p => edgeEq p.1 e) = none := by
      rw [List.find?_eq_none]
      intro p hp
      rcases List.mem_filter.1 hp with ⟨_, hcond⟩
      intro hpe
      have : H.edges.any (fun e' => decide (v ∈ e'.verts) && edgeEq p.1 e') = true :=
        List.any_eq_true.2 ⟨e, he, by simp [hve, hpe]⟩
      simp [this] at hcond
    simp [lookupW, hnone]

/-- C8 witness: removing vertex 2 from the path graph `P4`. -/
theorem remove_vertex_removes_incident_witness :
    ∃ H', remove_vertex P4 2 = .ok H' ∧
      2 ∉ H'.vertices ∧
      (∀ f ∈ H'.edges, 2 ∉ f.verts) ∧
      (∀ e ∈ P4.edges, 2 ∈ e.verts → lookupW H'.weights e = none) :=
  remove_vertex_removes_incident P4 2 (by decide) (by decide)

/-- C9: on the spec's concrete five-vertex undirected graph, `shortest_path`
from 1 to 5 returns the vertex list `[1, 2, 5]` with total distance
`3.25 = 13/4`. -/
theorem shortest_path_concrete_scenario :
    shortest_path G9 1 5 = .ok ([1, 2, 5], 13/4) := by
  decide

/-- C10: with the argument omitted, `uniform()` on an empty edge set and
`regular()` on an empty vertex set both raise (`StopIteration` from
`iter(...).next()`), instead of returning a boolean. -/
theorem uniform_regular_raise_on_empty :
    (∀ H : Hypergraph, H.edges = [] → uniform H none = .error "StopIteration") ∧
    (∀ H : Hypergraph, H.vertices = [] → regular H none = .error "StopIteration") := by
  constructor <;> intro H h <;> simp [uniform, regular, h]

/-- C10 witness: the empty hypergraph. -/
theorem uniform_regular_raise_on_empty_witness :
    uniform emptyH none = .error "StopIteration" ∧
    regular emptyH none = .error "StopIteration" :=
  ⟨uniform_regular_raise_on_empty.1 emptyH rfl,
   uniform_regular_raise_on_empty.2 emptyH rfl⟩

end HG
